import Mathlib

/-!
Shallow embedding of the ingestion pipeline in `python_service/main.py` of
TahubCS/cognigraph, together with theorems settling the specification claims
about it.  Pure Python functions become Lean functions; the Postgres tables
touched by the pipeline become explicit record state threaded through the
functions; the external capabilities (S3 download, OpenAI embedding / chat /
vision calls, the pypdf page objects) are inputs describing the outcome of
each external call, since their internals are not part of this repository.
-/

/-! ## Chunker (`chunk_text`, main.py lines 207-217)

The Python loop is

    start = 0
    while start < len(text):
        end = start + chunk_size
        chunks.append(text[start:end])
        start = end - overlap

It is embedded with an explicit iteration budget (`fuel`): one unit of fuel
per loop iteration, `none` meaning the budget was exhausted before the loop
condition `start >= len(text)` was reached.  The Python loop terminates within
`len(text) + 1` iterations whenever `overlap < chunk_size`, so on that domain
the fuel value used by `chunk_text` below is sufficient and the embedding is
exact; when `overlap >= chunk_size` the Python cursor never advances past the
end (`start` stays constant for `overlap = chunk_size` and goes negative,
hence stays below `len(text)`, for `overlap > chunk_size`; the Lean `Nat`
subtraction clamps the cursor at 0 with the same non-termination), and the
embedding returns `none` for every fuel value. -/
def chunkTextGo (text : List Char) (chunk_size overlap : Nat) : Nat → Nat → Option (List (List Char))
  | 0, start => if start < text.length then none else some []
  | fuel + 1, start =>
    if start < text.length then
      match chunkTextGo text chunk_size overlap fuel (start + chunk_size - overlap) with
      | some rest => some ((text.drop start).take chunk_size :: rest)
      | none => none
    else some []

/-- `chunk_text(text, chunk_size, overlap)` from main.py.  `some chunks` when
the Python loop terminates (which it does within `text.length + 1` iterations
whenever `overlap < chunk_size`), `none` when it diverges. -/
def chunk_text (text : String) (chunk_size overlap : Nat) : Option (List String) :=
  (chunkTextGo text.data chunk_size overlap (text.length + 1) 0).map (List.map String.mk)

/-! ## Content extractor (`extract_text_from_file`, main.py lines 180-204,
and `get_image_description`, lines 158-178)

External library behaviour is supplied as data: a `PdfPage` carries the
outcome of `page.extract_text()` (`Except.error` when the call raises,
`Except.ok none` when it returns `None`) and the page's embedded images; a
`PdfImage` carries `len(img.data)` and the outcome of the OpenAI vision call
made for it.  The extension dispatch of `extract_text_from_file` is encoded by
the `ExtractInput` constructor: `pdfFile` for the `.pdf` branch, `imageFile`
for jpg/jpeg/png/webp, `otherFile` for everything else, carrying the outcome
of the UTF-8 decode (`none` when it raises) and the Latin-1 decode (total). -/

structure PdfImage where
  data_length : Nat
  vision : Except Unit String

structure PdfPage where
  text : Except Unit (Option String)
  images : List PdfImage

inductive ExtractInput where
  | pdfFile (pages : List PdfPage)
  | imageFile (vision : Except Unit String)
  | otherFile (utf8 : Option String) (latin1 : String)

/-- `get_image_description`: wraps the vision model's reply in the tag lines;
its own try/except turns any vision failure into the empty string. -/
def get_image_description (vision : Except Unit String) (source_info : String) : String :=
  match vision with
  | Except.ok content =>
    "\n[IMAGE DESCRIPTION START (" ++ source_info ++ ")]\n" ++ content
      ++ "\n[IMAGE DESCRIPTION END]\n"
  | Except.error _ => ""

/-- The inner `for img_index, img in enumerate(page.images)` loop: images
whose byte size exceeds 5000 contribute their description. -/
def pdfImagesFold (images : List PdfImage) (page_num idx : Nat) (acc : String) : String :=
  match images with
  | [] => acc
  | img :: rest =>
    pdfImagesFold rest page_num (idx + 1)
      (if 5000 < img.data_length then
        acc ++ get_image_description img.vision
          ("Page " ++ toString (page_num + 1) ++ " Image " ++ toString (idx + 1))
      else acc)

/-- The `for page_num, page in enumerate(pdf_reader.pages)` loop.  A raising
`page.extract_text()` propagates out of the loop (the try/except sits around
the whole loop, not around a single page). -/
def pdfPagesFold (pages : List PdfPage) (page_num : Nat) (acc : String) : Except Unit String :=
  match pages with
  | [] => Except.ok acc
  | p :: rest =>
    match p.text with
    | Except.error e => Except.error e
    | Except.ok t =>
      pdfPagesFold rest (page_num + 1) (pdfImagesFold p.images page_num 0 (acc ++ t.getD "" ++ "\n"))

/-- `extract_text_from_file(file_bytes, file_key)`: the PDF branch catches any
exception of the whole page loop and returns `""`; the image branch delegates
to `get_image_description`; the fallback branch decodes UTF-8 and falls back
to Latin-1 (which cannot fail), so it is total. -/
def extract_text_from_file (input : ExtractInput) (file_key : String) : String :=
  match input with
  | ExtractInput.pdfFile pages =>
    match pdfPagesFold pages 0 "" with
    | Except.ok text => text
    | Except.error _ => ""
  | ExtractInput.imageFile vision =>
    get_image_description vision ("Uploaded File: " ++ file_key)
  | ExtractInput.otherFile utf8 latin1 => utf8.getD latin1

/-! ## Persistent store state

The four tables the pipeline touches (`documents`, `embeddings`, `nodes`,
`edges`), plus the sequence behind `nodes.id` (a Postgres serial, so fresh
identifiers start at 1 and are never 0).  The connection is opened with
`autocommit=True` (main.py lines 146-151), so every `conn.execute` is modelled
as an immediate state change with no rollback on a later exception. -/

structure DocRow where
  id : String
  domain : Option String
  status : String
deriving DecidableEq

structure EmbRow where
  document_id : String
  content : String
  embedding : List Int
deriving DecidableEq

structure NodeRow where
  id : Nat
  document_id : String
  label : String
  type : String
deriving DecidableEq

structure EdgeRow where
  document_id : String
  source_node_id : Nat
  target_node_id : Nat
  relationship : String
deriving DecidableEq

structure DB where
  documents : List DocRow
  embeddings : List EmbRow
  nodes : List NodeRow
  edges : List EdgeRow
  nextNodeId : Nat
deriving DecidableEq

/-- Two node rows collide on the `(document_id, label)` unique key. -/
def sameKey (a b : NodeRow) : Bool :=
  a.document_id == b.document_id && a.label == b.label

/-- The `nodes` table's unique constraint on `(document_id, label)`: no two
rows share that pair. -/
def nodupKeys : List NodeRow → Bool
  | [] => true
  | r :: rest => rest.all (fun q => !(sameKey q r)) && nodupKeys rest

/-- All persisted node ids are positive and the serial has not wrapped to 0 —
true of a Postgres serial column, and needed because the Python edge guard
`if source_id and target_id` tests truthiness, under which the integer 0
would be dropped like a missing key. -/
def idsPos (db : DB) : Bool :=
  db.nodes.all (fun r => r.id != 0) && (db.nextNodeId != 0)

/-- The `INSERT ... ON CONFLICT (document_id, label) DO UPDATE SET type =
EXCLUDED.type RETURNING id` statement of main.py lines 256-264: if a row with
this `(document_id, label)` exists its `type` is overwritten and its id
returned, otherwise a fresh row is inserted under the next serial id. -/
def upsertNode (db : DB) (document_id label ty : String) : Nat × DB :=
  match db.nodes.find? (fun r => r.document_id == document_id && r.label == label) with
  | some r =>
    (r.id, { db with nodes := db.nodes.map (fun q =>
      if q.document_id == document_id && q.label == label then { q with type := ty } else q) })
  | none =>
    (db.nextNodeId,
      { db with
        nodes := db.nodes ++ [{ id := db.nextNodeId, document_id := document_id,
                                label := label, type := ty }],
        nextNodeId := db.nextNodeId + 1 })

/-! ## Graph extractor/merger (`extract_graph_from_text`, main.py lines 223-285)

The model's structured output: a node record is the parsed dict `{label,
type}` and an edge record the parsed dict `{source, target, relationship}`;
a `none` field models a missing key, whose access (`node['label']`, …) raises
`KeyError`.  The whole body sits in one try/except, so any such exception ends
the call, keeping every row already written (autocommit). -/

structure NodeRec where
  label : Option String
  type : Option String
deriving DecidableEq

structure EdgeRec where
  source : Option String
  target : Option String
  relationship : Option String
deriving DecidableEq

structure GraphData where
  nodes : List NodeRec
  edges : List EdgeRec
deriving DecidableEq

def wfNode (n : NodeRec) : Bool := n.label.isSome && n.type.isSome

def wfEdge (e : EdgeRec) : Bool := e.source.isSome && e.target.isSome && e.relationship.isSome

def wfGraph (gd : GraphData) : Bool := gd.nodes.all wfNode && gd.edges.all wfEdge

/-- The `for node in graph_data.get('nodes', [])` loop: upsert each record and
extend the transient `node_map` dict (modelled as a function updated in
place, Python assignment overwriting earlier bindings).  Returns the state,
the map, and `false` when a missing field raised, ending the loop there. -/
def saveNodes (recs : List NodeRec) (document_id : String) (db : DB)
    (node_map : String → Option Nat) : DB × (String → Option Nat) × Bool :=
  match recs with
  | [] => (db, node_map, true)
  | n :: rest =>
    match n.label, n.type with
    | some l, some t =>
      let r := upsertNode db document_id l t
      saveNodes rest document_id r.2 (fun x => if x = l then some r.1 else node_map x)
    | _, _ => (db, node_map, false)

/-- The `for edge in graph_data.get('edges', [])` loop: look both endpoint
labels up in `node_map`; the Python guard `if source_id and target_id` keeps
the edge only when both lookups returned a truthy value (present and not the
integer 0); `edge['relationship']` is read only when inserting.  Returns the
state and `false` when a missing field raised. -/
def saveEdges (recs : List EdgeRec) (document_id : String) (db : DB)
    (node_map : String → Option Nat) : DB × Bool :=
  match recs with
  | [] => (db, true)
  | e :: rest =>
    match e.source, e.target with
    | some s, some t =>
      match node_map s, node_map t with
      | some source_id, some target_id =>
        if source_id ≠ 0 ∧ target_id ≠ 0 then
          match e.relationship with
          | some rel =>
            saveEdges rest document_id
              { db with edges := db.edges ++ [⟨document_id, source_id, target_id, rel⟩] }
              node_map
          | none => (db, false)
        else saveEdges rest document_id db node_map
      | some _, none =>
        saveEdges rest document_id db node_map
      | none, _ => saveEdges rest document_id db node_map
    | _, _ => (db, false)

/-- `extract_graph_from_text(text, document_id, conn, domain)`.  The prompt
construction, the chat-completion call and `json.loads` are summarised by the
`parsed` argument: `Except.error` when the capability call or the JSON parse
raised (caught by the function's own try/except before any row is written).
The function never raises: it returns the state reached when its body
finished or when the caught exception occurred. -/
def extract_graph_from_text (parsed : Except Unit GraphData) (document_id : String)
    (db : DB) : DB :=
  match parsed with
  | Except.error _ => db
  | Except.ok gd =>
    match saveNodes gd.nodes document_id db (fun _ => none) with
    | (db1, node_map, true) => (saveEdges gd.edges document_id db1 node_map).1
    | (db1, _, false) => db1

/-- The edge rows a call persists, described in closed form: one row per edge
record whose two labels both resolve through the call's label-to-identifier
map, carrying the mapped identifiers and the record's relationship label. -/
def resolvedEdgeRows (d : String) (m : String → Option Nat) (recs : List EdgeRec) : List EdgeRow :=
  (recs.filter (fun e =>
      ((m (e.source.getD "")).isSome && (m (e.target.getD "")).isSome))).map
    (fun e => ⟨d, (m (e.source.getD "")).getD 0, (m (e.target.getD "")).getD 0,
      e.relationship.getD ""⟩)

/-! ## Domain Strategy Registry (`STRATEGIES`, main.py lines 31-142)

One record per domain, transcribed from the source dict; the triple-quoted
task templates keep their line contents, with Python's literal indentation
preserved as spaces. -/

structure Strategy where
  chunk_size : Nat
  chunk_overlap : Nat
  system : String
  nodes : List String
  edges : List String
  prompt : String
deriving DecidableEq

def generalStrategy : Strategy :=
  { chunk_size := 1000
    chunk_overlap := 200
    system := "You are a Knowledge Graph Expert. Extract key entities and relationships."
    nodes := ["Person", "Organization", "Location", "Concept", "Event", "Object"]
    edges := ["RELATED_TO", "PART_OF", "LOCATED_IN", "CREATED", "USES"]
    prompt := "Extract key entities and relationships to build a general knowledge graph." }

def STRATEGIES : List (String × Strategy) :=
  [("legal",
    { chunk_size := 2500
      chunk_overlap := 500
      system := "You are a Senior Legal Analyst. Extract entities related to contracts, laws, and compliance."
      nodes := ["Person", "Organization", "Contract", "Clause", "Statute", "Date", "Location"]
      edges := ["SIGNED", "VIOLATES", "REFERENCES", "AMENDS", "LIABLE_FOR", "LOCATED_IN"]
      prompt := "\n            Analyze the text for legal relationships.\n            - Identify parties (Person/Org) and their obligations.\n            - Link Clauses to specific statutes or dates.\n            - Highlight liability and compliance risks.\n        " }),
   ("financial",
    { chunk_size := 1500
      chunk_overlap := 300
      system := "You are a Wall Street Financial Analyst. Extract entities related to markets, earnings, and risk."
      nodes := ["Company", "Metric", "Currency", "Asset", "Risk", "Regulation"]
      edges := ["REPORTED", "INCREASED", "DECREASED", "OWNS", "HEDGES_AGAINST", "COMPLIES_WITH"]
      prompt := "\n            Analyze the text for financial performance and risk.\n            - Extract KPIs (Revenue, EBITDA) and map them to Companies.\n            - Identify market risks and regulatory dependencies.\n        " }),
   ("medical",
    { chunk_size := 1200
      chunk_overlap := 250
      system := "You are a Chief Medical Officer. Extract clinical entities with high precision."
      nodes := ["Patient", "Symptom", "Condition", "Drug", "Treatment", "Dosage"]
      edges := ["DIAGNOSED_WITH", "TREATED_WITH", "CAUSES", "PREVENTS", "CONTRAINDICATES"]
      prompt := "\n            Analyze the text for clinical relationships.\n            - Map Symptoms to Conditions.\n            - Link Treatments/Drugs to the Conditions they address.\n            - Identify side effects or contraindications.\n        " }),
   ("engineering",
    { chunk_size := 1500
      chunk_overlap := 300
      system := "You are a Senior Staff Engineer. Extract technical architecture and dependencies."
      nodes := ["System", "Component", "Class", "Function", "API", "Database", "Service"]
      edges := ["CALLS", "IMPORTS", "DEPENDS_ON", "RETURNS", "STORES_IN", "INHERITS_FROM"]
      prompt := "\n            Analyze the text for software architecture.\n            - Identify System Components (Classes, Services) and how they interact.\n            - Map API endpoints to the data they handle.\n            - Highlight dependencies and potential failure points.\n        " }),
   ("sales",
    { chunk_size := 800
      chunk_overlap := 150
      system := "You are a Sales Operations Manager. Extract customer needs and product fit."
      nodes := ["Client", "Product", "Feature", "PainPoint", "Requirement", "Competitor"]
      edges := ["NEEDS", "PURCHASED", "COMPETES_WITH", "SOLVES", "REQUESTED"]
      prompt := "\n            Analyze the text for sales opportunities and requirements.\n            - Map Clients to their specific Pain Points.\n            - Link Products to the Requirements they solve.\n            - Identify Competitors mentioned.\n        " }),
   ("regulatory",
    { chunk_size := 2000
      chunk_overlap := 400
      system := "You are a Compliance Officer. Extract regulations and violations."
      nodes := ["Regulation", "Agency", "Policy", "Violation", "Standard", "Audit"]
      edges := ["ENFORCES", "VIOLATES", "COMPLIES_WITH", "AUDITED_BY", "MANDATES"]
      prompt := "\n            Analyze the text for regulatory compliance.\n            - Link Agencies (FDA, SEC) to the Regulations they enforce.\n            - Identify internal Policies and check for alignment with Standards.\n        " }),
   ("journalism",
    { chunk_size := 1000
      chunk_overlap := 200
      system := "You are an Investigative Journalist. Extract the who, what, where, and when."
      nodes := ["Person", "Event", "Location", "Date", "Source", "Organization"]
      edges := ["WITNESSED", "REPORTED", "OCCURRED_AT", "INVOLVED_IN", "QUOTED"]
      prompt := "\n            Analyze the text for factual reporting.\n            - Create a timeline of Events linked to Dates.\n            - Map People to the Events they were involved in.\n            - Track Sources of information.\n        " }),
   ("hr",
    { chunk_size := 1000
      chunk_overlap := 200
      system := "You are a Human Resources Director. Extract employee and policy info."
      nodes := ["Employee", "Role", "Department", "Policy", "Benefit", "Skill"]
      edges := ["REPORTS_TO", "MEMBER_OF", "ELIGIBLE_FOR", "REQUIRES", "VIOLATES"]
      prompt := "\n            Analyze the text for organizational structure and benefits.\n            - Map Roles to Departments.\n            - Link Employees to their Skills and Benefits.\n            - Identify policy requirements.\n        " }),
   ("general", generalStrategy)]

/-- `STRATEGIES.get(domain)`: dictionary lookup by key. -/
def STRATEGIES_get (domain : String) : Option Strategy :=
  (STRATEGIES.find? (fun p => p.1 == domain)).map (fun p => p.2)

/-- `STRATEGIES.get(domain, STRATEGIES["general"])` as used at main.py lines
226 and 307: unknown tags fall back to the `general` entry. -/
def resolveStrategy (domain : String) : Strategy :=
  (STRATEGIES_get domain).getD generalStrategy

/-! ## Pipeline orchestrator (`process_file_logic`, main.py lines 287-335) -/

/-- The whitespace set of Python's `str.strip()` (ASCII part, which covers
every string this development evaluates). -/
def isPyWs (c : Char) : Bool :=
  c == ' ' || c == '\t' || c == '\n' || c == '\r' || c == '\x0B' || c == '\x0C'

/-- Python `text.strip()`. -/
def pyStrip (s : String) : String :=
  String.mk (((s.data.dropWhile isPyWs).reverse.dropWhile isPyWs).reverse)

/-- `UPDATE documents SET status = %s WHERE id = %s`. -/
def updateStatus (db : DB) (document_id st : String) : DB :=
  { db with documents := db.documents.map (fun r =>
      if r.id == document_id then { r with status := st } else r) }

/-- `SELECT domain FROM documents WHERE id = %s` followed by
`result['domain'] if result and result['domain'] else 'general'`: a missing row,
a NULL domain and an empty-string domain (all falsy) yield `general`. -/
def lookupDomain (db : DB) (document_id : String) : String :=
  match db.documents.find? (fun r => r.id == document_id) with
  | some row =>
    match row.domain with
    | some dm => if dm == "" then "general" else dm
    | none => "general"
  | none => "general"

/-- The per-chunk loop: `generate_embedding(chunk)` (outcome given by the
`embed` argument) then `INSERT INTO embeddings ...`; an embedding failure
raises out of the loop (`false`), keeping rows already inserted. -/
def embedChunks (embed : String → Except Unit (List Int)) (document_id : String) :
    List String → DB → DB × Bool
  | [], db => (db, true)
  | c :: rest, db =>
    match embed c with
    | Except.ok v =>
      embedChunks embed document_id rest
        { db with embeddings := db.embeddings ++ [⟨document_id, c, v⟩] }
    | Except.error _ => (db, false)

/-- Outcomes of the external calls one run makes: the S3 download (and the
library-level parse of its bytes into an `ExtractInput`), the embedding
capability per chunk text, and the graph extraction capability. -/
structure RunEnv where
  download : Except Unit ExtractInput
  embed : String → Except Unit (List Int)
  graph : Except Unit GraphData

/-- Body of the `try` block of `process_file_logic`, after the initial status
update: read the domain, download and extract, fail the run on blank text,
chunk with the resolved strategy, embed chunk by chunk, extract the graph,
then mark `COMPLETED`; any raising step jumps to the `except` handler which
marks `FAILED` on the state reached so far.  The `.getD []` on `chunk_text`
is unreachable: every registry strategy satisfies `chunk_overlap <
chunk_size`, under which the chunking loop terminates. -/
def pipelineBody (env : RunEnv) (file_key document_id : String) (db1 : DB) : DB :=
  match env.download with
  | Except.error _ => updateStatus db1 document_id "FAILED"
  | Except.ok fi =>
    let full_text := extract_text_from_file fi file_key
    if pyStrip full_text = "" then updateStatus db1 document_id "FAILED"
    else
      let strategy := resolveStrategy (lookupDomain db1 document_id)
      let chunks := (chunk_text full_text strategy.chunk_size strategy.chunk_overlap).getD []
      match embedChunks env.embed document_id chunks db1 with
      | (db2, true) =>
        updateStatus (extract_graph_from_text env.graph document_id db2) document_id "COMPLETED"
      | (db2, false) => updateStatus db2 document_id "FAILED"

/-- `process_file_logic(file_key, document_id)`: set `PROCESSING`, then run
the body. -/
def process_file_logic (env : RunEnv) (file_key document_id : String) (db : DB) : DB :=
  pipelineBody env file_key document_id (updateStatus db document_id "PROCESSING")

/-! ## Closed form of the chunking loop -/

theorem chunkTextGo_spec (text : List Char) (size overlap : Nat) (h : overlap < size) :
    ∀ fuel start, text.length - start ≤ fuel * (size - overlap) →
      chunkTextGo text size overlap fuel start =
        some ((List.range ((text.length - start + (size - overlap) - 1) / (size - overlap))).map
          (fun k => (text.drop (start + k * (size - overlap))).take size)) := by
  have hstep : 0 < size - overlap := Nat.sub_pos_of_lt h
  intro fuel
  induction fuel with
  | zero =>
    intro start hs
    rw [Nat.zero_mul, Nat.le_zero] at hs
    have hns : ¬ start < text.length := by omega
    simp only [chunkTextGo, if_neg hns, hs]
    rw [Nat.div_eq_of_lt (by omega)]
    rfl
  | succ fuel ih =>
    intro start hs
    by_cases hlt : start < text.length
    · have harg : start + size - overlap = start + (size - overlap) := by omega
      have hrec : text.length - (start + (size - overlap)) ≤ fuel * (size - overlap) := by
        rw [Nat.succ_mul] at hs; omega
      simp only [chunkTextGo, if_pos hlt, harg, ih _ hrec]
      have hm : 1 ≤ text.length - start := by omega
      have hcnt : (text.length - start + (size - overlap) - 1) / (size - overlap)
          = (text.length - (start + (size - overlap)) + (size - overlap) - 1) / (size - overlap) + 1 := by
        rcases Nat.le_total (text.length - start) (size - overlap) with hc | hc
        · rw [show text.length - start + (size - overlap) - 1
              = (text.length - start - 1) + (size - overlap) by omega,
            Nat.add_div_right _ hstep,
            Nat.div_eq_of_lt (by omega), Nat.div_eq_of_lt (by omega)]
        · rw [show text.length - start + (size - overlap) - 1
              = (text.length - (start + (size - overlap)) + (size - overlap) - 1) + (size - overlap) by omega,
            Nat.add_div_right _ hstep]
      rw [hcnt, List.range_succ_eq_map, List.map_cons, List.map_map]
      congr 2
      · simp
      · apply List.map_congr_left
        intro k _
        simp only [Function.comp_apply]
        congr 2
        rw [Nat.succ_mul]
        omega
    · have hz : text.length - start = 0 := by omega
      simp only [chunkTextGo, if_neg hlt, hz]
      rw [Nat.div_eq_of_lt (by omega)]
      rfl

/-- Claim C1: for `0 ≤ overlap < size`, `chunk_text` returns exactly the
ordered windows `text[k*(size-overlap) : k*(size-overlap)+size]` for
`k = 0, 1, ...` while `k*(size-overlap) < len(text)`; consequently every
character index of `text` lies inside at least one chunk's window, every
chunk has length at most `size`, and empty input yields the empty list. -/
theorem chunk_text_windows_spec (text : String) (size overlap : Nat) (h : overlap < size) :
    chunk_text text size overlap =
      some ((List.range ((text.length + (size - overlap) - 1) / (size - overlap))).map
        (fun k => String.mk ((text.data.drop (k * (size - overlap))).take size)))
    ∧ (∀ k, k < (text.length + (size - overlap) - 1) / (size - overlap) ↔
        k * (size - overlap) < text.length)
    ∧ (∀ i, i < text.length → ∃ k, k < (text.length + (size - overlap) - 1) / (size - overlap)
        ∧ k * (size - overlap) ≤ i ∧ i < k * (size - overlap) + size)
    ∧ (∀ cs, chunk_text text size overlap = some cs → ∀ c ∈ cs, c.length ≤ size)
    ∧ (text = "" → chunk_text text size overlap = some []) := by
  have hstep : 0 < size - overlap := Nat.sub_pos_of_lt h
  have hlen : text.length = text.data.length := rfl
  have hfuel : text.data.length - 0 ≤ (text.length + 1) * (size - overlap) := by
    have h1 : text.length + 1 ≤ (text.length + 1) * (size - overlap) :=
      Nat.le_mul_of_pos_right _ hstep
    omega
  have hgo := chunkTextGo_spec text.data size overlap h (text.length + 1) 0 hfuel
  have hmain : chunk_text text size overlap =
      some ((List.range ((text.length + (size - overlap) - 1) / (size - overlap))).map
        (fun k => String.mk ((text.data.drop (k * (size - overlap))).take size))) := by
    unfold chunk_text
    rw [hgo]
    simp only [Option.map_some', List.map_map, Nat.sub_zero, ← hlen]
    congr 1
    apply List.map_congr_left
    intro k _
    simp [Function.comp_apply, Nat.zero_add]
  have hiff : ∀ k, k < (text.length + (size - overlap) - 1) / (size - overlap) ↔
      k * (size - overlap) < text.length := by
    intro k
    have h1 : k < (text.length + (size - overlap) - 1) / (size - overlap) ↔
        (k + 1) * (size - overlap) ≤ text.length + (size - overlap) - 1 :=
      Nat.lt_iff_add_one_le.trans (Nat.le_div_iff_mul_le hstep)
    rw [h1, Nat.add_mul, Nat.one_mul]
    generalize k * (size - overlap) = a
    omega
  refine ⟨hmain, hiff, ?_, ?_, ?_⟩
  · intro i hi
    obtain ⟨q, r, hqr, hr⟩ : ∃ q r, q * (size - overlap) + r = i ∧ r < size - overlap :=
      ⟨i / (size - overlap), i % (size - overlap), Nat.div_add_mod' i _, Nat.mod_lt i hstep⟩
    have hle : q * (size - overlap) ≤ i := Nat.le.intro hqr
    refine ⟨q, (hiff q).2 (lt_of_le_of_lt hle hi), hle, ?_⟩
    have hso : size - overlap ≤ size := Nat.sub_le _ _
    omega
  · intro cs hcs c hc
    rw [hmain] at hcs
    injection hcs with hcs
    subst hcs
    rw [List.mem_map] at hc
    obtain ⟨k, _, rfl⟩ := hc
    show ((text.data.drop (k * (size - overlap))).take size).length ≤ size
    rw [List.length_take]
    exact min_le_left _ _
  · intro he
    subst he
    rw [hmain]
    rw [show (("" : String).length + (size - overlap) - 1) / (size - overlap) = 0 from
      Nat.div_eq_of_lt (by simp; omega)]
    rfl

/-- Witness for C1 at the spec's concrete scenario: `"ABCDEFGHIJ"` with
`size = 4`, `overlap = 2` yields `["ABCD","CDEF","EFGH","GHIJ","IJ"]`. -/
theorem chunk_text_windows_spec_witness :
    2 < 4 ∧ chunk_text "ABCDEFGHIJ" 4 2 = some ["ABCD", "CDEF", "EFGH", "GHIJ", "IJ"] := by
  refine ⟨by decide, ?_⟩
  rw [(chunk_text_windows_spec "ABCDEFGHIJ" 4 2 (by decide)).1]
  rfl

/-- Claim C9: for `overlap < size` the number of chunks is exactly
`ceil(len(text) / (size - overlap))`, written as
`(len + (size - overlap) - 1) / (size - overlap)` over the naturals,
and the empty text yields `0` chunks. -/
theorem chunk_text_count (text : String) (size overlap : Nat) (h : overlap < size) :
    ∃ cs, chunk_text text size overlap = some cs
      ∧ cs.length = (text.length + (size - overlap) - 1) / (size - overlap)
      ∧ (text = "" → cs.length = 0) := by
  have hstep : 0 < size - overlap := Nat.sub_pos_of_lt h
  have hfuel : text.data.length - 0 ≤ (text.length + 1) * (size - overlap) := by
    have h1 : text.length + 1 ≤ (text.length + 1) * (size - overlap) :=
      Nat.le_mul_of_pos_right _ hstep
    have : text.data.length = text.length := rfl
    omega
  have hgo := chunkTextGo_spec text.data size overlap h (text.length + 1) 0 hfuel
  refine ⟨_, by unfold chunk_text; rw [hgo]; rfl, ?_, ?_⟩
  · simp [Nat.sub_zero]
  · intro he
    subst he
    simp
    exact Nat.div_eq_of_lt (by omega)

/-- Witness for C9: `"ABCDEFGHIJ"` with `size = 4`, `overlap = 2` yields
exactly `ceil(10 / 2) = 5` chunks. -/
theorem chunk_text_count_witness :
    2 < 4 ∧ ∃ cs, chunk_text "ABCDEFGHIJ" 4 2 = some cs
      ∧ cs.length = ((10 : Nat) + (4 - 2) - 1) / (4 - 2)
      ∧ ("ABCDEFGHIJ" = "" → cs.length = 0) :=
  ⟨by decide, chunk_text_count "ABCDEFGHIJ" 4 2 (by decide)⟩

/-- Claim C4 (code bug): `chunk_text` has no configuration guard.  With
`overlap ≥ size` and non-empty text the cursor `start = start + size - overlap`
never advances past the end of the text, so the Python `while` loop never
terminates: the embedded loop returns `none` (budget exhausted) for every
iteration budget, from every cursor position still inside the text. -/
theorem chunk_text_no_overlap_guard (text : String) (size overlap : Nat)
    (h1 : size ≤ overlap) (h2 : text ≠ "") :
    chunk_text text size overlap = none
    ∧ ∀ fuel start, start < text.length →
        chunkTextGo text.data size overlap fuel start = none := by
  have hpos : 0 < text.length := by
    cases text with
    | mk data =>
      cases data with
      | nil => exact absurd rfl h2
      | cons c cs => simp [String.length]
  have hloop : ∀ fuel start, start < text.length →
      chunkTextGo text.data size overlap fuel start = none := by
    intro fuel
    induction fuel with
    | zero =>
      intro start hlt
      simp only [chunkTextGo]
      rw [if_pos (show start < text.data.length from hlt)]
    | succ fuel ih =>
      intro start hlt
      have hnext : start + size - overlap ≤ start := by omega
      have hrec := ih (start + size - overlap) (lt_of_le_of_lt hnext hlt)
      simp only [chunkTextGo, hrec]
      rw [if_pos (show start < text.data.length from hlt)]
  refine ⟨?_, hloop⟩
  unfold chunk_text
  rw [hloop (text.length + 1) 0 hpos]
  rfl

/-- Witness for C4: at the concrete failing input `chunk_text("A", 4, 4)` the
loop diverges (no guard rejects `overlap = size`). -/
theorem chunk_text_no_overlap_guard_witness :
    chunk_text "A" 4 4 = none :=
  (chunk_text_no_overlap_guard "A" 4 4 (by decide) (by decide)).1

/-! ## Claim C2: failure granularity of PDF extraction -/

theorem pdfPagesFold_ok_of_pages_ok (pages : List PdfPage)
    (hok : ∀ q ∈ pages, ∃ t, q.text = Except.ok t) :
    ∀ n acc, ∃ out, pdfPagesFold pages n acc = Except.ok out := by
  induction pages with
  | nil => intro n acc; exact ⟨acc, rfl⟩
  | cons p rest ih =>
    intro n acc
    obtain ⟨t, ht⟩ := hok p (List.mem_cons_self p rest)
    have hrest : ∀ q ∈ rest, ∃ t, q.text = Except.ok t :=
      fun q hq => hok q (List.mem_cons_of_mem p hq)
    obtain ⟨out, hout⟩ := ih hrest (n + 1) (pdfImagesFold p.images n 0 (acc ++ t.getD "" ++ "\n"))
    exact ⟨out, by simp only [pdfPagesFold, ht]; exact hout⟩

theorem pdfPagesFold_error_of_bad_page (pages₁ pages₂ : List PdfPage) (p : PdfPage)
    (hgood : ∀ q ∈ pages₁, ∃ t, q.text = Except.ok t)
    (hbad : p.text = Except.error ()) :
    ∀ n acc, pdfPagesFold (pages₁ ++ p :: pages₂) n acc = Except.error () := by
  induction pages₁ with
  | nil =>
    intro n acc
    simp only [List.nil_append, pdfPagesFold, hbad]
  | cons q rest ih =>
    intro n acc
    obtain ⟨t, ht⟩ := hgood q (List.mem_cons_self q rest)
    have hrest : ∀ r ∈ rest, ∃ t, r.text = Except.ok t :=
      fun r hr => hgood r (List.mem_cons_of_mem q hr)
    simp only [List.cons_append, pdfPagesFold, ht]
    exact ih hrest (n + 1) _

/-- Counterexample for claim C2 as stated: when the first page's text layer
raises and a later page succeeds, the whole PDF extraction aborts and returns
`""` — the later page's content does not appear, whereas with both pages
succeeding it would have (second conjunct). -/
theorem pdf_page_failure_counterexample :
    extract_text_from_file (ExtractInput.pdfFile
      [⟨Except.error (), []⟩, ⟨Except.ok (some "LATER PAGE CONTENT"), []⟩]) "doc.pdf" = ""
    ∧ extract_text_from_file (ExtractInput.pdfFile
      [⟨Except.ok (some "FIRST"), []⟩, ⟨Except.ok (some "LATER PAGE CONTENT"), []⟩]) "doc.pdf"
      = "FIRST\nLATER PAGE CONTENT\n" := by
  constructor <;> rfl

/-- Claim C2 as amended: a failing Visual Describer call for an embedded image
contributes the empty string without aborting anything, and a PDF whose pages
all extract without raising never aborts; but an exception in one page's text
layer aborts the whole PDF extraction (the try/except wraps the entire page
loop), which then returns `""`, discarding earlier and later pages alike. -/
theorem pdf_failure_granularity (pages₁ pages₂ : List PdfPage) (p : PdfPage) (key src : String)
    (hgood : ∀ q ∈ pages₁, ∃ t, q.text = Except.ok t)
    (hbad : p.text = Except.error ()) :
    extract_text_from_file (ExtractInput.pdfFile (pages₁ ++ p :: pages₂)) key = ""
    ∧ get_image_description (Except.error ()) src = ""
    ∧ ∀ pages n acc, (∀ q ∈ pages, ∃ t, q.text = Except.ok t) →
        ∃ out, pdfPagesFold pages n acc = Except.ok out := by
  refine ⟨?_, rfl, fun pages n acc hok => pdfPagesFold_ok_of_pages_ok pages hok n acc⟩
  show (match pdfPagesFold (pages₁ ++ p :: pages₂) 0 "" with
    | Except.ok text => text
    | Except.error _ => "") = ""
  rw [pdfPagesFold_error_of_bad_page pages₁ pages₂ p hgood hbad 0 ""]

/-- Witness for the amended C2 at a concrete input: one good page, then a
raising page, then a good page — the whole extraction yields `""`. -/
theorem pdf_failure_granularity_witness :
    extract_text_from_file (ExtractInput.pdfFile
      [⟨Except.ok (some "P1"), []⟩, ⟨Except.error (), []⟩, ⟨Except.ok (some "P3"), []⟩])
      "doc.pdf" = ""
    ∧ get_image_description (Except.error ()) "Page 1 Image 1" = ""
    ∧ ∀ pages n acc, (∀ q ∈ pages, ∃ t, q.text = Except.ok t) →
        ∃ out, pdfPagesFold pages n acc = Except.ok out := by
  refine pdf_failure_granularity [⟨Except.ok (some "P1"), []⟩] [⟨Except.ok (some "P3"), []⟩]
    ⟨Except.error (), []⟩ "doc.pdf" "Page 1 Image 1" ?_ rfl
  intro q hq
  rw [List.mem_singleton] at hq
  subst hq
  exact ⟨some "P1", rfl⟩

/-! ## Node upsert: key bookkeeping lemmas -/

theorem string_beq_comm (s t : String) : (s == t) = (t == s) := by
  rw [Bool.eq_iff_iff]
  simp only [beq_iff_eq]
  exact eq_comm

theorem sameKey_comm (a b : NodeRow) : sameKey a b = sameKey b a := by
  unfold sameKey
  rw [string_beq_comm a.document_id b.document_id, string_beq_comm a.label b.label]

theorem all_congr_on {α : Type} (p q : α → Bool) (xs : List α) (h : ∀ a ∈ xs, p a = q a) :
    xs.all p = xs.all q := by
  induction xs with
  | nil => rfl
  | cons a xs ih =>
    simp only [List.all_cons, h a (List.mem_cons_self a xs),
      ih (fun b hb => h b (List.mem_cons_of_mem a hb))]

theorem upd_key_eq (d l ty : String) (q : NodeRow) :
    ((if q.document_id == d && q.label == l then { q with type := ty } else q) : NodeRow).document_id
        = q.document_id
    ∧ ((if q.document_id == d && q.label == l then { q with type := ty } else q) : NodeRow).label
        = q.label := by
  split <;> exact ⟨rfl, rfl⟩

theorem countP_map_keypred (f : NodeRow → NodeRow)
    (hf : ∀ q, (f q).document_id = q.document_id ∧ (f q).label = q.label)
    (d l : String) (xs : List NodeRow) :
    (xs.map f).countP (fun r => r.document_id == d && r.label == l)
      = xs.countP (fun r => r.document_id == d && r.label == l) := by
  induction xs with
  | nil => rfl
  | cons a xs ih =>
    simp only [List.map_cons, List.countP_cons, ih, (hf a).1, (hf a).2]

theorem find?_map_keypred (f : NodeRow → NodeRow)
    (hf : ∀ q, (f q).document_id = q.document_id ∧ (f q).label = q.label)
    (d l : String) (xs : List NodeRow) :
    (xs.map f).find? (fun r => r.document_id == d && r.label == l)
      = (xs.find? (fun r => r.document_id == d && r.label == l)).map f := by
  induction xs with
  | nil => rfl
  | cons a xs ih =>
    cases hpa : (a.document_id == d && a.label == l) with
    | true => simp [List.find?_cons, (hf a).1, (hf a).2, hpa]
    | false =>
      simp only [List.map_cons, List.find?_cons, (hf a).1, (hf a).2, hpa]
      exact ih

theorem nodupKeys_map_keypred (f : NodeRow → NodeRow)
    (hf : ∀ q, (f q).document_id = q.document_id ∧ (f q).label = q.label)
    (xs : List NodeRow) :
    nodupKeys (xs.map f) = nodupKeys xs := by
  induction xs with
  | nil => rfl
  | cons a xs ih =>
    simp only [List.map_cons, nodupKeys, List.all_map, ih]
    congr 1
    apply all_congr_on
    intro q _
    simp only [Function.comp_apply, sameKey, (hf a).1, (hf a).2, (hf q).1, (hf q).2]

theorem find?_append_none {α : Type} (p : α → Bool) (l₁ l₂ : List α)
    (h : l₁.find? p = none) : (l₁ ++ l₂).find? p = l₂.find? p := by
  induction l₁ with
  | nil => rfl
  | cons a l ih =>
    cases hpa : p a with
    | true => simp [List.find?_cons, hpa] at h
    | false =>
      simp only [List.find?_cons, hpa] at h
      simp only [List.cons_append, List.find?_cons, hpa]
      exact ih h

theorem nodupKeys_append_singleton (xs : List NodeRow) (x : NodeRow)
    (hx : ∀ q ∈ xs, sameKey q x = false) (h : nodupKeys xs = true) :
    nodupKeys (xs ++ [x]) = true := by
  induction xs with
  | nil => simp [nodupKeys]
  | cons a xs ih =>
    simp only [nodupKeys, Bool.and_eq_true, List.all_eq_true] at h
    obtain ⟨h1, h2⟩ := h
    have hx' : ∀ q ∈ xs, sameKey q x = false :=
      fun q hq => hx q (List.mem_cons_of_mem a hq)
    simp only [List.cons_append, nodupKeys, Bool.and_eq_true, List.all_eq_true]
    refine ⟨?_, ih hx' h2⟩
    intro q hq
    rcases List.mem_append.mp hq with hq | hq
    · exact h1 q hq
    · have hqx := List.mem_singleton.mp hq
      subst hqx
      rw [sameKey_comm]
      simp [hx a (List.mem_cons_self a xs)]

theorem countP_key_le_one (d l : String) (xs : List NodeRow) (h : nodupKeys xs = true) :
    xs.countP (fun r => r.document_id == d && r.label == l) ≤ 1 := by
  induction xs with
  | nil => exact Nat.zero_le 1
  | cons a xs ih =>
    simp only [nodupKeys, Bool.and_eq_true, List.all_eq_true] at h
    obtain ⟨h1, h2⟩ := h
    rw [List.countP_cons]
    cases hpa : (a.document_id == d && a.label == l) with
    | true =>
      have hzero : xs.countP (fun r => r.document_id == d && r.label == l) = 0 := by
        rw [List.countP_eq_zero]
        intro q hq hcq
        have hk : sameKey q a = true := by
          simp only [Bool.and_eq_true, beq_iff_eq] at hpa hcq
          simp [sameKey, beq_iff_eq, hpa.1, hpa.2, hcq.1, hcq.2]
        have hcontra := h1 q hq
        rw [hk] at hcontra
        exact absurd hcontra (by decide)
      simp [hzero, hpa]
    | false => simp [hpa, ih h2]

theorem countP_key_pos_of_find? (d l : String) (xs : List NodeRow) (r : NodeRow)
    (hf : xs.find? (fun q => q.document_id == d && q.label == l) = some r) :
    0 < xs.countP (fun q => q.document_id == d && q.label == l) := by
  have hmem := List.mem_of_find?_eq_some hf
  have hpr := List.find?_some hf
  exact List.countP_pos_iff.mpr ⟨r, hmem, hpr⟩

/-! ## Reduction lemmas for `upsertNode` -/

theorem upsert_of_find_some (db : DB) (d l t : String) (r : NodeRow)
    (hf : db.nodes.find? (fun q => q.document_id == d && q.label == l) = some r) :
    upsertNode db d l t =
      (r.id, { db with nodes := db.nodes.map (fun q =>
        if q.document_id == d && q.label == l then { q with type := t } else q) }) := by
  unfold upsertNode
  rw [hf]

theorem upsert_of_find_none (db : DB) (d l t : String)
    (hf : db.nodes.find? (fun q => q.document_id == d && q.label == l) = none) :
    upsertNode db d l t =
      (db.nextNodeId,
        { db with
            nodes := db.nodes ++ [⟨db.nextNodeId, d, l, t⟩],
            nextNodeId := db.nextNodeId + 1 }) := by
  unfold upsertNode
  rw [hf]

theorem upsert_preserves_nodup (db : DB) (h : nodupKeys db.nodes = true) (d l t : String) :
    nodupKeys ((upsertNode db d l t).2).nodes = true := by
  cases hf : db.nodes.find? (fun q => q.document_id == d && q.label == l) with
  | some r =>
    rw [upsert_of_find_some db d l t r hf]
    show nodupKeys (db.nodes.map _) = true
    rw [nodupKeys_map_keypred _ (upd_key_eq d l t)]
    exact h
  | none =>
    rw [upsert_of_find_none db d l t hf]
    show nodupKeys (db.nodes ++ [⟨db.nextNodeId, d, l, t⟩]) = true
    apply nodupKeys_append_singleton _ _ _ h
    intro q hq
    have hnm := List.find?_eq_none.mp hf q hq
    rw [Bool.not_eq_true] at hnm
    exact hnm

/-! ## Claim C5: idempotent node upsert -/

/-- Claim C5: node upsert is idempotent per `(document_id, label)`: under the
table's unique constraint, upserting `(d, l)` twice (with types `t` then `t'`,
covering both the same-record case `t = t'` and re-extraction with a new type)
leaves the constraint intact, leaves exactly one row for `(d, l)`, that row's
type being the most recently extracted one; and any single upsert, at any key,
preserves the constraint. -/
theorem node_upsert_idempotent (db : DB) (d l t t' d2 l2 t2 : String)
    (h : nodupKeys db.nodes = true) :
    nodupKeys ((upsertNode (upsertNode db d l t).2 d l t').2).nodes = true
    ∧ ((upsertNode (upsertNode db d l t).2 d l t').2).nodes.countP
        (fun r => r.document_id == d && r.label == l) = 1
    ∧ (((upsertNode (upsertNode db d l t).2 d l t').2).nodes.find?
        (fun r => r.document_id == d && r.label == l)).map (fun r => r.type) = some t'
    ∧ nodupKeys ((upsertNode db d2 l2 t2).2).nodes = true := by
  have hnodup1 := upsert_preserves_nodup db h d l t
  have hnodup2 := upsert_preserves_nodup _ hnodup1 d l t'
  have hboth : ((upsertNode (upsertNode db d l t).2 d l t').2).nodes.countP
        (fun r => r.document_id == d && r.label == l) = 1
      ∧ (((upsertNode (upsertNode db d l t).2 d l t').2).nodes.find?
        (fun r => r.document_id == d && r.label == l)).map (fun r => r.type) = some t' := by
    cases hf : db.nodes.find? (fun q => q.document_id == d && q.label == l) with
    | none =>
      have h1 := upsert_of_find_none db d l t hf
      have hnew : (fun q : NodeRow => q.document_id == d && q.label == l)
          (⟨db.nextNodeId, d, l, t⟩ : NodeRow) = true := by simp
      have hf2 : ((upsertNode db d l t).2).nodes.find?
          (fun q => q.document_id == d && q.label == l) = some ⟨db.nextNodeId, d, l, t⟩ := by
        rw [h1]
        show (db.nodes ++ [(⟨db.nextNodeId, d, l, t⟩ : NodeRow)]).find?
          (fun q : NodeRow => q.document_id == d && q.label == l) = _
        rw [find?_append_none _ _ _ hf]
        simp [List.find?]
      have h2 := upsert_of_find_some _ d l t' _ hf2
      constructor
      · rw [h2]
        show (((upsertNode db d l t).2).nodes.map (fun q =>
          if q.document_id == d && q.label == l then { q with type := t' } else q)).countP
            (fun r => r.document_id == d && r.label == l) = 1
        rw [countP_map_keypred _ (upd_key_eq d l t'), h1]
        show (db.nodes ++ [(⟨db.nextNodeId, d, l, t⟩ : NodeRow)]).countP
          (fun r : NodeRow => r.document_id == d && r.label == l) = 1
        rw [List.countP_append]
        have hz : db.nodes.countP (fun r => r.document_id == d && r.label == l) = 0 :=
          List.countP_eq_zero.mpr (List.find?_eq_none.mp hf)
        rw [hz]
        simp [List.countP_cons]
      · rw [h2]
        show ((((upsertNode db d l t).2).nodes.map (fun q =>
          if q.document_id == d && q.label == l then { q with type := t' } else q)).find?
            (fun r => r.document_id == d && r.label == l)).map (fun r => r.type) = some t'
        rw [find?_map_keypred _ (upd_key_eq d l t'), hf2]
        simp
    | some r =>
      have hkr := List.find?_some hf
      have h1 := upsert_of_find_some db d l t r hf
      have hf2 : ((upsertNode db d l t).2).nodes.find?
          (fun q => q.document_id == d && q.label == l)
          = some (if r.document_id == d && r.label == l then { r with type := t } else r) := by
        rw [h1]
        show (db.nodes.map (fun q : NodeRow =>
          if q.document_id == d && q.label == l then { q with type := t } else q)).find?
            (fun q : NodeRow => q.document_id == d && q.label == l) = _
        rw [find?_map_keypred _ (upd_key_eq d l t), hf]
        rfl
      have h2 := upsert_of_find_some _ d l t' _ hf2
      constructor
      · rw [h2]
        show (((upsertNode db d l t).2).nodes.map (fun q =>
          if q.document_id == d && q.label == l then { q with type := t' } else q)).countP
            (fun r => r.document_id == d && r.label == l) = 1
        rw [countP_map_keypred _ (upd_key_eq d l t'), h1]
        show (db.nodes.map (fun q =>
          if q.document_id == d && q.label == l then { q with type := t } else q)).countP
            (fun r => r.document_id == d && r.label == l) = 1
        rw [countP_map_keypred _ (upd_key_eq d l t)]
        have hle := countP_key_le_one d l db.nodes h
        have hpos := countP_key_pos_of_find? d l db.nodes r hf
        omega
      · rw [h2]
        show ((((upsertNode db d l t).2).nodes.map (fun q =>
          if q.document_id == d && q.label == l then { q with type := t' } else q)).find?
            (fun r => r.document_id == d && r.label == l)).map (fun r => r.type) = some t'
        rw [find?_map_keypred _ (upd_key_eq d l t'), hf2]
        simp only [Option.map_some']
        simp [hkr]
  exact ⟨hnodup2, hboth.1, hboth.2, upsert_preserves_nodup db h d2 l2 t2⟩

/-- Witness for C5 at a concrete database: upserting `("doc1", "Acme")` twice
into an empty `nodes` table. -/
theorem node_upsert_idempotent_witness :
    nodupKeys ((upsertNode (upsertNode ⟨[], [], [], [], 1⟩ "doc1" "Acme" "Org").2
        "doc1" "Acme" "Company").2).nodes = true
    ∧ ((upsertNode (upsertNode ⟨[], [], [], [], 1⟩ "doc1" "Acme" "Org").2
        "doc1" "Acme" "Company").2).nodes.countP
          (fun r => r.document_id == "doc1" && r.label == "Acme") = 1
    ∧ (((upsertNode (upsertNode ⟨[], [], [], [], 1⟩ "doc1" "Acme" "Org").2
        "doc1" "Acme" "Company").2).nodes.find?
          (fun r => r.document_id == "doc1" && r.label == "Acme")).map (fun r => r.type)
        = some "Company"
    ∧ nodupKeys ((upsertNode ⟨[], [], [], [], 1⟩ "other-doc" "Bob" "Person").2).nodes = true :=
  node_upsert_idempotent ⟨[], [], [], [], 1⟩ "doc1" "Acme" "Org" "Company"
    "other-doc" "Bob" "Person" (by decide)

/-! ## Graph extractor: frame and closed-form lemmas -/

theorem upsertNode_frame (db : DB) (d l t : String) :
    ((upsertNode db d l t).2).edges = db.edges
    ∧ ((upsertNode db d l t).2).embeddings = db.embeddings
    ∧ ((upsertNode db d l t).2).documents = db.documents := by
  cases hf : db.nodes.find? (fun q => q.document_id == d && q.label == l) with
  | some r => rw [upsert_of_find_some db d l t r hf]; exact ⟨rfl, rfl, rfl⟩
  | none => rw [upsert_of_find_none db d l t hf]; exact ⟨rfl, rfl, rfl⟩

theorem saveNodes_frame (d : String) :
    ∀ (recs : List NodeRec) (db : DB) (m : String → Option Nat),
      ((saveNodes recs d db m).1).edges = db.edges
      ∧ ((saveNodes recs d db m).1).embeddings = db.embeddings
      ∧ ((saveNodes recs d db m).1).documents = db.documents := by
  intro recs
  induction recs with
  | nil => intro db m; exact ⟨rfl, rfl, rfl⟩
  | cons n rest ih =>
    intro db m
    rcases n with ⟨nl, nt⟩
    cases nl with
    | none => exact ⟨rfl, rfl, rfl⟩
    | some l =>
      cases nt with
      | none => exact ⟨rfl, rfl, rfl⟩
      | some t =>
        show ((saveNodes rest d (upsertNode db d l t).2 _).1).edges = db.edges ∧ _ ∧ _
        have hup := upsertNode_frame db d l t
        have hih := ih (upsertNode db d l t).2
          (fun x => if x = l then some (upsertNode db d l t).1 else m x)
        exact ⟨hih.1.trans hup.1, hih.2.1.trans hup.2.1, hih.2.2.trans hup.2.2⟩

theorem saveEdges_frame (d : String) :
    ∀ (recs : List EdgeRec) (db : DB) (m : String → Option Nat),
      ((saveEdges recs d db m).1).nodes = db.nodes
      ∧ ((saveEdges recs d db m).1).embeddings = db.embeddings
      ∧ ((saveEdges recs d db m).1).documents = db.documents := by
  intro recs
  induction recs with
  | nil => intro db m; exact ⟨rfl, rfl, rfl⟩
  | cons e rest ih =>
    intro db m
    rcases e with ⟨es, et, er⟩
    cases es with
    | none => exact ⟨rfl, rfl, rfl⟩
    | some s =>
      cases et with
      | none => exact ⟨rfl, rfl, rfl⟩
      | some t =>
        simp only [saveEdges]
        split
        · split
          · split
            · exact ih _ m
            · exact ⟨rfl, rfl, rfl⟩
          · exact ih db m
        · exact ih db m
        · exact ih db m

theorem extract_graph_frame (parsed : Except Unit GraphData) (d : String) (db : DB) :
    (extract_graph_from_text parsed d db).embeddings = db.embeddings
    ∧ (extract_graph_from_text parsed d db).documents = db.documents := by
  cases parsed with
  | error e => exact ⟨rfl, rfl⟩
  | ok gd =>
    rcases hsn : saveNodes gd.nodes d db (fun _ => none) with ⟨db1, node_map, ok⟩
    have hframe := saveNodes_frame d gd.nodes db (fun _ => none)
    rw [hsn] at hframe
    have hn : db1.embeddings = db.embeddings ∧ db1.documents = db.documents :=
      ⟨hframe.2.1, hframe.2.2⟩
    cases ok with
    | false =>
      have hgoal : extract_graph_from_text (Except.ok gd) d db = db1 := by
        show (match saveNodes gd.nodes d db (fun _ => none) with
          | (db1, node_map, true) => (saveEdges gd.edges d db1 node_map).1
          | (db1, _, false) => db1) = db1
        rw [hsn]
      rw [hgoal]
      exact hn
    | true =>
      have hgoal : extract_graph_from_text (Except.ok gd) d db
          = (saveEdges gd.edges d db1 node_map).1 := by
        show (match saveNodes gd.nodes d db (fun _ => none) with
          | (db1, node_map, true) => (saveEdges gd.edges d db1 node_map).1
          | (db1, _, false) => db1) = (saveEdges gd.edges d db1 node_map).1
        rw [hsn]
      rw [hgoal]
      have he := saveEdges_frame d gd.edges db1 node_map
      exact ⟨he.2.1.trans hn.1, he.2.2.trans hn.2⟩

/-! ## Claim C10: autocommit, no rollback -/

theorem saveNodes_stops_at_bad (d : String) (bad : NodeRec) (rest : List NodeRec)
    (hbad : bad.label = none ∨ bad.type = none) :
    ∀ (good : List NodeRec) (db : DB) (m : String → Option Nat),
      good.all wfNode = true →
      saveNodes (good ++ bad :: rest) d db m
        = ((saveNodes good d db m).1, (saveNodes good d db m).2.1, false) := by
  intro good
  induction good with
  | nil =>
    intro db m _
    rcases bad with ⟨bl, bt⟩
    rcases hbad with hb | hb
    · simp only at hb
      subst hb
      rfl
    · simp only at hb
      subst hb
      cases bl <;> rfl
  | cons n good ih =>
    intro db m hwf
    simp only [List.all_cons, Bool.and_eq_true] at hwf
    rcases n with ⟨nl, nt⟩
    cases nl with
    | none => simp [wfNode] at hwf
    | some l =>
      cases nt with
      | none => simp [wfNode] at hwf
      | some t =>
        simp only [List.cons_append, saveNodes]
        exact ih _ _ hwf.2

/-- Claim C10: a single `extract_graph_from_text` call is not atomic over its
own writes.  The connection autocommits, so when reading a malformed node
record raises after earlier records were upserted, the call ends (exception
caught) with exactly the state the good prefix produced: every earlier upsert
of the same call stays persisted, nothing is rolled back, and no edge of the
response was written. -/
theorem autocommit_no_rollback (db : DB) (d : String) (good : List NodeRec) (bad : NodeRec)
    (rest : List NodeRec) (edges : List EdgeRec)
    (hgood : good.all wfNode = true)
    (hbad : bad.label = none ∨ bad.type = none) :
    extract_graph_from_text (Except.ok ⟨good ++ bad :: rest, edges⟩) d db
      = (saveNodes good d db (fun _ => none)).1
    ∧ (extract_graph_from_text (Except.ok ⟨good ++ bad :: rest, edges⟩) d db).edges = db.edges := by
  have hstop := saveNodes_stops_at_bad d bad rest hbad good db (fun _ => none) hgood
  have hmain : extract_graph_from_text (Except.ok ⟨good ++ bad :: rest, edges⟩) d db
      = (saveNodes good d db (fun _ => none)).1 := by
    show (match saveNodes (good ++ bad :: rest) d db (fun _ => none) with
      | (db1, node_map, true) => (saveEdges edges d db1 node_map).1
      | (db1, _, false) => db1) = (saveNodes good d db (fun _ => none)).1
    rw [hstop]
  refine ⟨hmain, ?_⟩
  rw [hmain]
  exact (saveNodes_frame d good db (fun _ => none)).1

/-- Witness for C10: the response `{"nodes": [{"label": "Acme", "type":
"Organization"}, {"type": "Person"}], "edges": [...]}` whose second node
record lacks `label` leaves the first upsert persisted. -/
theorem autocommit_no_rollback_witness :
    extract_graph_from_text (Except.ok ⟨[⟨some "Acme", some "Organization"⟩, ⟨none, some "Person"⟩],
        [⟨some "Acme", some "Acme", some "RELATED_TO"⟩]⟩) "doc1" ⟨[], [], [], [], 1⟩
      = (saveNodes [⟨some "Acme", some "Organization"⟩] "doc1" ⟨[], [], [], [], 1⟩ (fun _ => none)).1
    ∧ (extract_graph_from_text (Except.ok ⟨[⟨some "Acme", some "Organization"⟩, ⟨none, some "Person"⟩],
        [⟨some "Acme", some "Acme", some "RELATED_TO"⟩]⟩) "doc1" ⟨[], [], [], [], 1⟩).edges = [] :=
  autocommit_no_rollback ⟨[], [], [], [], 1⟩ "doc1" [⟨some "Acme", some "Organization"⟩]
    ⟨none, some "Person"⟩ [] [⟨some "Acme", some "Acme", some "RELATED_TO"⟩]
    (by decide) (Or.inl rfl)

/-! ## Claim C3: edge resolution policy -/

theorem all_id_map_keypred (f : NodeRow → NodeRow) (hfid : ∀ q, (f q).id = q.id)
    (xs : List NodeRow) :
    (xs.map f).all (fun r => r.id != 0) = xs.all (fun r => r.id != 0) := by
  rw [List.all_map]
  apply all_congr_on
  intro a _
  simp only [Function.comp_apply, hfid a]

theorem upsertNode_idsPos (db : DB) (d l t : String) (hid : idsPos db = true) :
    (upsertNode db d l t).1 ≠ 0 ∧ idsPos (upsertNode db d l t).2 = true := by
  have hparts := hid
  simp only [idsPos, Bool.and_eq_true, List.all_eq_true, bne_iff_ne, ne_eq] at hparts
  obtain ⟨hall, hnext⟩ := hparts
  cases hf : db.nodes.find? (fun q => q.document_id == d && q.label == l) with
  | some r =>
    rw [upsert_of_find_some db d l t r hf]
    refine ⟨hall r (List.mem_of_find?_eq_some hf), ?_⟩
    show ((db.nodes.map (fun q =>
      if q.document_id == d && q.label == l then { q with type := t } else q)).all
        (fun r => r.id != 0) && (db.nextNodeId != 0)) = true
    rw [all_id_map_keypred _ (fun q => by split <;> rfl)]
    exact hid
  | none =>
    rw [upsert_of_find_none db d l t hf]
    refine ⟨hnext, ?_⟩
    show ((db.nodes ++ [(⟨db.nextNodeId, d, l, t⟩ : NodeRow)]).all (fun r => r.id != 0)
      && ((db.nextNodeId + 1) != 0)) = true
    simp only [List.all_append, Bool.and_eq_true, List.all_eq_true, bne_iff_ne, ne_eq]
    refine ⟨⟨hall, ?_⟩, by omega⟩
    intro q hq
    have hqx := List.mem_singleton.mp hq
    subst hqx
    exact hnext

theorem saveNodes_ok (d : String) :
    ∀ (recs : List NodeRec) (db : DB) (m : String → Option Nat),
      recs.all wfNode = true → idsPos db = true → (∀ s n, m s = some n → n ≠ 0) →
      (saveNodes recs d db m).2.2 = true
      ∧ idsPos (saveNodes recs d db m).1 = true
      ∧ (∀ s n, (saveNodes recs d db m).2.1 s = some n → n ≠ 0) := by
  intro recs
  induction recs with
  | nil => intro db m _ hid hm; exact ⟨rfl, hid, hm⟩
  | cons n rest ih =>
    intro db m hwf hid hm
    simp only [List.all_cons, Bool.and_eq_true] at hwf
    rcases n with ⟨nl, nt⟩
    cases nl with
    | none => simp [wfNode] at hwf
    | some l =>
      cases nt with
      | none => simp [wfNode] at hwf
      | some t =>
        simp only [saveNodes]
        have hup := upsertNode_idsPos db d l t hid
        apply ih _ _ hwf.2 hup.2
        intro s n hsn
        by_cases hsl : s = l
        · subst hsl
          rw [if_pos rfl] at hsn
          injection hsn with hsn
          subst hsn
          exact hup.1
        · rw [if_neg hsl] at hsn
          exact hm s n hsn

theorem saveEdges_closed (d : String) :
    ∀ (recs : List EdgeRec) (db : DB) (m : String → Option Nat),
      recs.all wfEdge = true → (∀ s n, m s = some n → n ≠ 0) →
      saveEdges recs d db m
        = ({ db with edges := db.edges ++ resolvedEdgeRows d m recs }, true) := by
  intro recs
  induction recs with
  | nil =>
    intro db m _ _
    show (db, true) = _
    simp [resolvedEdgeRows]
  | cons e rest ih =>
    intro db m hwf hm
    simp only [List.all_cons, Bool.and_eq_true] at hwf
    rcases e with ⟨es, et, er⟩
    cases es with
    | none => simp [wfEdge] at hwf
    | some s =>
      cases et with
      | none => simp [wfEdge] at hwf
      | some t =>
        cases er with
        | none => simp [wfEdge] at hwf
        | some rel =>
          simp only [saveEdges]
          cases hms : m s with
          | none =>
            show saveEdges rest d db m = _
            rw [ih db m hwf.2 hm]
            simp [resolvedEdgeRows, List.filter_cons, hms]
          | some sid =>
            cases hmt : m t with
            | none =>
              show saveEdges rest d db m = _
              rw [ih db m hwf.2 hm]
              simp [resolvedEdgeRows, List.filter_cons, hms, hmt]
            | some tid =>
              have hz : sid ≠ 0 ∧ tid ≠ 0 := ⟨hm s sid hms, hm t tid hmt⟩
              show (if sid ≠ 0 ∧ tid ≠ 0 then
                  saveEdges rest d
                    { db with edges := db.edges ++ [(⟨d, sid, tid, rel⟩ : EdgeRow)] } m
                else saveEdges rest d db m) = _
              rw [if_pos hz, ih _ m hwf.2 hm]
              simp [resolvedEdgeRows, List.filter_cons, hms, hmt, List.append_assoc]

/-- Claim C3: within one `extract_graph_from_text` call over a well-formed
response against a store whose node ids are positive, the node pass succeeds
and the edges written by the call are exactly one row per edge record whose
`source` and `target` labels both resolve through this call's
label-to-identifier map (built from the same response's node records):
unresolved edges are dropped silently, contributing nothing; every resolved
edge record contributes its own row unconditionally — no deduplication. -/
theorem edge_resolution_policy (db : DB) (d : String) (gd : GraphData)
    (hwf : wfGraph gd = true) (hid : idsPos db = true) :
    ∃ db1 m, saveNodes gd.nodes d db (fun _ => none) = (db1, m, true)
      ∧ extract_graph_from_text (Except.ok gd) d db
        = { db1 with edges := db1.edges ++ resolvedEdgeRows d m gd.edges } := by
  simp only [wfGraph, Bool.and_eq_true] at hwf
  have hsave := saveNodes_ok d gd.nodes db (fun _ => none) hwf.1 hid
    (fun s n h => by simp at h)
  rcases hsn : saveNodes gd.nodes d db (fun _ => none) with ⟨db1, m, ok⟩
  rw [hsn] at hsave
  obtain ⟨hok, hid1, hm⟩ := hsave
  cases ok with
  | false => exact absurd hok (by simp)
  | true =>
    refine ⟨db1, m, rfl, ?_⟩
    have hgoal : extract_graph_from_text (Except.ok gd) d db
        = (saveEdges gd.edges d db1 m).1 := by
      show (match saveNodes gd.nodes d db (fun _ => none) with
        | (db1, node_map, true) => (saveEdges gd.edges d db1 node_map).1
        | (db1, _, false) => db1) = _
      rw [hsn]
    rw [hgoal, saveEdges_closed d gd.edges db1 m hwf.2 hm]

/-- Witness for C3 at the spec's concrete scenario: the response
`{"nodes": [{"label": "Acme", "type": "Organization"}], "edges": [{"source":
"Acme", "target": "Bob", "relationship": "EMPLOYS"}]}` where `Bob` is absent
from the nodes. -/
theorem edge_resolution_policy_witness :
    ∃ db1 m, saveNodes [⟨some "Acme", some "Organization"⟩] "doc1" ⟨[], [], [], [], 1⟩
        (fun _ => none) = (db1, m, true)
      ∧ extract_graph_from_text (Except.ok ⟨[⟨some "Acme", some "Organization"⟩],
          [⟨some "Acme", some "Bob", some "EMPLOYS"⟩]⟩) "doc1" ⟨[], [], [], [], 1⟩
        = { db1 with edges := db1.edges
            ++ resolvedEdgeRows "doc1" m [⟨some "Acme", some "Bob", some "EMPLOYS"⟩] } :=
  edge_resolution_policy ⟨[], [], [], [], 1⟩ "doc1"
    ⟨[⟨some "Acme", some "Organization"⟩], [⟨some "Acme", some "Bob", some "EMPLOYS"⟩]⟩
    (by decide) (by decide)

/-! ## Claim C8: domain-to-Strategy resolution is total -/

/-- Claim C8: `resolveStrategy` is a total function (every tag yields a
Strategy by type), any tag outside the fixed catalog resolves to exactly the
`general` Strategy, and an absent document row, a NULL domain and an
empty-string domain all make the orchestrator's domain lookup fall back to
`general`, which resolves to the `general` Strategy. -/
theorem domain_resolution_total (dm : String) (db : DB) (document_id : String) :
    (STRATEGIES.find? (fun p => p.1 == dm) = none → resolveStrategy dm = generalStrategy)
    ∧ (db.documents.find? (fun r => r.id == document_id) = none →
        resolveStrategy (lookupDomain db document_id) = generalStrategy)
    ∧ (∀ row, db.documents.find? (fun r => r.id == document_id) = some row →
        (row.domain = none ∨ row.domain = some "") →
        resolveStrategy (lookupDomain db document_id) = generalStrategy)
    ∧ resolveStrategy "general" = generalStrategy := by
  have hgen : resolveStrategy "general" = generalStrategy := by rfl
  refine ⟨?_, ?_, ?_, hgen⟩
  · intro h
    unfold resolveStrategy STRATEGIES_get
    rw [h]
    rfl
  · intro h
    unfold lookupDomain
    rw [h]
    exact hgen
  · intro row hrow hdm
    unfold lookupDomain
    rw [hrow]
    rcases hdm with h | h
    · show resolveStrategy (match row.domain with
        | some dm => if dm == "" then "general" else dm
        | none => "general") = generalStrategy
      rw [h]
      exact hgen
    · show resolveStrategy (match row.domain with
        | some dm => if dm == "" then "general" else dm
        | none => "general") = generalStrategy
      rw [h]
      exact hgen

/-- Witness for C8: `resolve("nonexistent-domain")` is the `general` Strategy;
so is the resolution for a document id with no row and for a row whose domain
field is NULL. -/
theorem domain_resolution_total_witness :
    resolveStrategy "nonexistent-domain" = generalStrategy
    ∧ resolveStrategy (lookupDomain ⟨[⟨"doc9", none, "PENDING"⟩], [], [], [], 1⟩ "absent-doc")
        = generalStrategy
    ∧ resolveStrategy (lookupDomain ⟨[⟨"doc9", none, "PENDING"⟩], [], [], [], 1⟩ "doc9")
        = generalStrategy :=
  ⟨(domain_resolution_total "nonexistent-domain" ⟨[], [], [], [], 1⟩ "d").1 (by rfl),
   (domain_resolution_total "x" ⟨[⟨"doc9", none, "PENDING"⟩], [], [], [], 1⟩ "absent-doc").2.1
     (by rfl),
   (domain_resolution_total "x" ⟨[⟨"doc9", none, "PENDING"⟩], [], [], [], 1⟩ "doc9").2.2.1
     ⟨"doc9", none, "PENDING"⟩ (by rfl) (Or.inl rfl)⟩

/-! ## Claim C7: blank extracted text is a terminal failure -/

/-- Claim C7: when the extracted text of a run is empty or whitespace-only
(`not full_text.strip()`), the orchestrator raises before chunking, the
handler marks the document `FAILED`, and no chunk/embedding row — indeed no
row of any table except the status field — is persisted by the run. -/
theorem empty_text_terminal_failure (env : RunEnv) (fk doc : String) (db : DB)
    (fi : ExtractInput)
    (h1 : env.download = Except.ok fi)
    (h2 : pyStrip (extract_text_from_file fi fk) = "") :
    process_file_logic env fk doc db
      = updateStatus (updateStatus db doc "PROCESSING") doc "FAILED"
    ∧ (process_file_logic env fk doc db).embeddings = db.embeddings
    ∧ (process_file_logic env fk doc db).nodes = db.nodes
    ∧ (process_file_logic env fk doc db).edges = db.edges
    ∧ ∀ r ∈ (process_file_logic env fk doc db).documents, r.id = doc → r.status = "FAILED" := by
  have hmain : process_file_logic env fk doc db
      = updateStatus (updateStatus db doc "PROCESSING") doc "FAILED" := by
    unfold process_file_logic pipelineBody
    rw [h1]
    show (if pyStrip (extract_text_from_file fi fk) = "" then
        updateStatus (updateStatus db doc "PROCESSING") doc "FAILED"
      else _) = _
    rw [if_pos h2]
  refine ⟨hmain, ?_, ?_, ?_, ?_⟩
  · rw [hmain]; rfl
  · rw [hmain]; rfl
  · rw [hmain]; rfl
  · rw [hmain]
    intro r hr hid
    show r.status = "FAILED"
    obtain ⟨x, hx, rfl⟩ := List.mem_map.mp hr
    by_cases hxd : (x.id == doc) = true
    · simp [hxd]
    · exfalso
      apply hxd
      rw [beq_iff_eq]
      have : ((if x.id == doc then { x with status := "FAILED" } else x) : DocRow).id = x.id := by
        split <;> rfl
      rw [this] at hid
      exact hid

/-- Witness for C7 at the spec's concrete scenario: empty-byte input through
the plain-text branch decodes to `""`, and the run ends `FAILED` with no rows
added. -/
theorem empty_text_terminal_failure_witness :
    process_file_logic
        ⟨Except.ok (ExtractInput.otherFile (some "") ""), fun _ => Except.ok [], Except.error ()⟩
        "empty.txt" "d1" ⟨[⟨"d1", none, "PENDING"⟩], [], [], [], 1⟩
      = updateStatus (updateStatus ⟨[⟨"d1", none, "PENDING"⟩], [], [], [], 1⟩ "d1" "PROCESSING")
          "d1" "FAILED"
    ∧ (process_file_logic
        ⟨Except.ok (ExtractInput.otherFile (some "") ""), fun _ => Except.ok [], Except.error ()⟩
        "empty.txt" "d1" ⟨[⟨"d1", none, "PENDING"⟩], [], [], [], 1⟩).embeddings = []
    ∧ (process_file_logic
        ⟨Except.ok (ExtractInput.otherFile (some "") ""), fun _ => Except.ok [], Except.error ()⟩
        "empty.txt" "d1" ⟨[⟨"d1", none, "PENDING"⟩], [], [], [], 1⟩).nodes = []
    ∧ (process_file_logic
        ⟨Except.ok (ExtractInput.otherFile (some "") ""), fun _ => Except.ok [], Except.error ()⟩
        "empty.txt" "d1" ⟨[⟨"d1", none, "PENDING"⟩], [], [], [], 1⟩).edges = []
    ∧ ∀ r ∈ (process_file_logic
        ⟨Except.ok (ExtractInput.otherFile (some "") ""), fun _ => Except.ok [], Except.error ()⟩
        "empty.txt" "d1" ⟨[⟨"d1", none, "PENDING"⟩], [], [], [], 1⟩).documents,
        r.id = "d1" → r.status = "FAILED" :=
  empty_text_terminal_failure
    ⟨Except.ok (ExtractInput.otherFile (some "") ""), fun _ => Except.ok [], Except.error ()⟩
    "empty.txt" "d1" ⟨[⟨"d1", none, "PENDING"⟩], [], [], [], 1⟩
    (ExtractInput.otherFile (some "") "") rfl (by rfl)

/-! ## Claim C6: a graph-extraction failure never fails the run -/

/-- Claim C6: `extract_graph_from_text` never raises past its boundary.  For
any outcome of the graph step (`env.graph` is arbitrary here: capability
error, unparseable output, malformed records, or success), a run whose
earlier steps succeeded still ends with the `COMPLETED` status update, and
the graph step leaves the embeddings (the persisted chunk rows) and the
documents table of the state it received untouched. -/
theorem graph_failure_never_fails_run (env : RunEnv) (fk doc : String) (db db2 : DB)
    (fi : ExtractInput)
    (h1 : env.download = Except.ok fi)
    (h2 : pyStrip (extract_text_from_file fi fk) ≠ "")
    (h3 : embedChunks env.embed doc
        ((chunk_text (extract_text_from_file fi fk)
          (resolveStrategy (lookupDomain (updateStatus db doc "PROCESSING") doc)).chunk_size
          (resolveStrategy (lookupDomain (updateStatus db doc "PROCESSING") doc)).chunk_overlap).getD [])
        (updateStatus db doc "PROCESSING") = (db2, true)) :
    process_file_logic env fk doc db
      = updateStatus (extract_graph_from_text env.graph doc db2) doc "COMPLETED"
    ∧ (extract_graph_from_text env.graph doc db2).embeddings = db2.embeddings
    ∧ (extract_graph_from_text env.graph doc db2).documents = db2.documents := by
  refine ⟨?_, (extract_graph_frame env.graph doc db2).1, (extract_graph_frame env.graph doc db2).2⟩
  unfold process_file_logic pipelineBody
  rw [h1]
  show (if pyStrip (extract_text_from_file fi fk) = "" then
      updateStatus (updateStatus db doc "PROCESSING") doc "FAILED"
    else _) = _
  rw [if_neg h2]
  show (match embedChunks env.embed doc
      ((chunk_text (extract_text_from_file fi fk)
        (resolveStrategy (lookupDomain (updateStatus db doc "PROCESSING") doc)).chunk_size
        (resolveStrategy (lookupDomain (updateStatus db doc "PROCESSING") doc)).chunk_overlap).getD [])
      (updateStatus db doc "PROCESSING") with
    | (db2, true) => updateStatus (extract_graph_from_text env.graph doc db2) doc "COMPLETED"
    | (db2, false) => updateStatus db2 doc "FAILED") = _
  rw [h3]

/-- Witness for C6 at a concrete run whose graph step fails outright
(`Except.error`): the single chunk row persists and the run completes. -/
theorem graph_failure_never_fails_run_witness :
    process_file_logic
        ⟨Except.ok (ExtractInput.otherFile (some "hi") "hi"), fun _ => Except.ok [1],
          Except.error ()⟩
        "notes.txt" "d1" ⟨[⟨"d1", some "general", "PENDING"⟩], [], [], [], 1⟩
      = updateStatus (extract_graph_from_text (Except.error ()) "d1"
          ⟨[⟨"d1", some "general", "PROCESSING"⟩], [⟨"d1", "hi", [1]⟩], [], [], 1⟩)
          "d1" "COMPLETED"
    ∧ (extract_graph_from_text (Except.error ()) "d1"
        ⟨[⟨"d1", some "general", "PROCESSING"⟩], [⟨"d1", "hi", [1]⟩], [], [], 1⟩).embeddings
      = [⟨"d1", "hi", [1]⟩]
    ∧ (extract_graph_from_text (Except.error ()) "d1"
        ⟨[⟨"d1", some "general", "PROCESSING"⟩], [⟨"d1", "hi", [1]⟩], [], [], 1⟩).documents
      = [⟨"d1", some "general", "PROCESSING"⟩] :=
  graph_failure_never_fails_run
    ⟨Except.ok (ExtractInput.otherFile (some "hi") "hi"), fun _ => Except.ok [1],
      Except.error ()⟩
    "notes.txt" "d1" ⟨[⟨"d1", some "general", "PENDING"⟩], [], [], [], 1⟩
    ⟨[⟨"d1", some "general", "PROCESSING"⟩], [⟨"d1", "hi", [1]⟩], [], [], 1⟩
    (ExtractInput.otherFile (some "hi") "hi") rfl (by decide) (by rfl)
